import Mathlib

/-!
Verification of the tile resource lifecycle engine of the rocky repository:
the sentry-blocked usage tracker (src/rocky/Utils.h, SentryTracker), the
priority update queue (src/rocky/vsg/VSGContext.cpp, PriorityUpdateQueue),
the deferred disposal queue (src/rocky/vsg/VSGContext.cpp, VSGContextImpl
dispose and update), and the Bing tile URI cache path
(src/rocky/BingImageLayer.cpp, createImageImplementation).

Each C++ structure is shallowly embedded as executable Lean definitions and
the specification claims are settled as theorems about those definitions.
-/

namespace Rocky

/-! ## SentryTracker (src/rocky/Utils.h lines 307-417)

The C++ class keeps one std::list of entries together with a sentry marker
entry and an iterator _sentryptr at the marker. Entries spliced to
_list.begin() by use() sit before the marker; flush() iterates strictly
after the marker. We embed the list as the pair of the segment before the
marker (front, most recently used first) and the segment after it (back).
Tokens are back references to entries; in the embedding an entry is
identified by its data value, which is faithful whenever the data values
held by the tracker are distinct, as in the claims under study. -/

structure Tracker (T : Type) where
  front : List T
  back : List T
deriving DecidableEq

/-- Embeds SentryTracker::use with a null token (Utils.h lines 367-374):
a new entry is emplaced at the front of the list, before the sentry. -/
def useNew {T : Type} (data : T) (s : Tracker T) : Tracker T :=
  ⟨data :: s.front, s.back⟩

/-- Embeds SentryTracker::use with a valid token (Utils.h lines 356-366):
the entry the token points at is spliced to the front of the list, so it
moves from wherever it sits (before or after the sentry) to the head of
the front segment. -/
def useTouch {T : Type} [DecidableEq T] (data : T) (s : Tracker T) : Tracker T :=
  if data ∈ s.front then ⟨data :: s.front.erase data, s.back⟩
  else ⟨data :: s.front, s.back.erase data⟩

/-- Outcome of one flush pass over the stale segment: the entries that
remain, the entries erased, and the entries the dispose callback was
invoked on, each in list order. -/
structure SweepOut (T : Type) where
  remaining : List T
  removed : List T
  visited : List T
deriving DecidableEq

/-- Embeds the loop of SentryTracker::flush (Utils.h lines 384-411): walk
the entries after the sentry; on each, invoke dispose; if it returns true
erase the entry and count it, stopping once count reaches maxCount. The
first argument is the remaining budget maxCount - count. -/
def sweepBack {T : Type} (dispose : T → Bool) : Nat → List T → SweepOut T
  | _, [] => ⟨[], [], []⟩
  | 0, l => ⟨l, [], []⟩
  | fuel + 1, x :: xs =>
    if dispose x then
      let r := sweepBack dispose fuel xs
      ⟨r.remaining, x :: r.removed, x :: r.visited⟩
    else
      let r := sweepBack dispose (fuel + 1) xs
      ⟨x :: r.remaining, r.removed, x :: r.visited⟩

/-- Embeds SentryTracker::flush (Utils.h lines 377-416): sweep the segment
behind the sentry, then splice the sentry to the front of the list, so the
previously touched entries end up behind it and the touched segment is
empty. Returns the new tracker state and the sweep outcome. -/
def flush {T : Type} (maxCount : Nat) (dispose : T → Bool) (s : Tracker T) :
    Tracker T × SweepOut T :=
  let r := sweepBack dispose maxCount s.back
  (⟨[], s.front ++ r.remaining⟩, r)

/-- The accept-all disposer: dispose returns true on every entry. -/
def acceptAll {T : Type} : T → Bool := fun _ => true

/-! ## PriorityUpdateQueue (src/rocky/vsg/VSGContext.cpp lines 232-286)

A queued Task holds a vsg Operation and an optional get_priority closure.
The embedding gives each task an identifier, the value its get_priority
closure returns (none when the closure is null), and the outcome of the
dynamic_cast to Cancelable at pop time: probe = none when the operation is
not Cancelable, some c when it is and canceled() returns c. Priorities are
modelled over Int; the claims only use their ordering. -/

structure Task where
  tid : Nat
  priority : Option Int
  probe : Option Bool
deriving DecidableEq

/-- Embeds the comparator passed to std::sort (VSGContext.cpp lines
253-261): a task with a null get_priority is never less than anything, a
task with a priority is less than one without, and otherwise the returned
priorities are compared. -/
def taskLT (lhs rhs : Task) : Bool :=
  match lhs.priority, rhs.priority with
  | none, _ => false
  | some _, none => true
  | some pa, some pb => decide (pa < pb)

/-- Insert a task before the first strictly greater element, giving an
ascending order consistent with the strict weak order of taskLT. std::sort
leaves the order of equivalent elements unspecified; this insertion sort
is one deterministic refinement of it, and the claims under study involve
no equivalent pairs. -/
def insertTask (t : Task) : List Task → List Task
  | [] => [t]
  | u :: us => if taskLT t u then t :: u :: us else u :: insertTask t us

/-- Sort the pending queue from low to high priority (VSGContext.cpp line
252). -/
def sortTasks (q : List Task) : List Task :=
  q.foldr insertTask []

/-- Embeds the pop-time cancellation test (VSGContext.cpp lines 272-276):
the task is discarded exactly when the dynamic_cast succeeds and
canceled() returns true. -/
def taskCanceled (t : Task) : Bool :=
  match t.probe with
  | some c => c
  | none => false

/-- Embeds the while loop of PriorityUpdateQueue::run (VSGContext.cpp
lines 264-277) on the reversed sorted queue: pop tasks off the back,
discarding canceled ones, until a runnable task is found or the queue is
empty. Returns the selected task and the tasks still popped off behind it
(in back-first order). -/
def selectLoop : List Task → Option Task × List Task
  | [] => (none, [])
  | t :: rest => if taskCanceled t then selectLoop rest else (some t, rest)

/-- Embeds PriorityUpdateQueue::run (VSGContext.cpp lines 243-285): if the
queue is nonempty, sort it ascending, pop from the back discarding
canceled tasks, and run the first runnable task found. Returns the queue
left pending after the call and the list of tasks executed by the call. -/
def runOne (q : List Task) : List Task × List Task :=
  if q.isEmpty then (q, [])
  else
    let sorted := sortTasks q
    match selectLoop sorted.reverse with
    | (some t, restRev) => (restRev.reverse, [t])
    | (none, _) => ([], [])

/-- Run n successive update ticks, collecting the identifiers of the tasks
executed, in execution order. -/
def runTicks : Nat → List Task → List Task × List Nat
  | 0, q => (q, [])
  | n + 1, q =>
    let r := runOne q
    let rest := runTicks n r.1
    (rest.1, r.2.map Task.tid ++ rest.2)

/-! ## Deferred disposal queue (src/rocky/vsg/VSGContext.cpp)

VSGContextImpl holds _disposal_queue, a deque of collections of objects,
initialized to 8 empty collections (line 335). dispose appends the object
to the back collection (lines 553-571, when no custom disposer is
installed); update clears the front collection — the actual destruction
point — and rotates it to the back (lines 605-614). The deque is embedded
as a list of lists, front first. -/

/-- Embeds the enqueue line _disposal_queue.back().emplace_back(object)
(VSGContext.cpp line 568): append the object to the last generation. On an
empty deque (never the case in the code, which resizes to 8 up front) it
is a no-op. -/
def ringDispose {α : Type} (o : α) : List (List α) → List (List α)
  | [] => []
  | [g] => [g ++ [o]]
  | g :: gs => g :: ringDispose o gs

/-- Dispose each object of a cycle in order. -/
def ringDisposeAll {α : Type} (os : List α) (gens : List (List α)) : List (List α) :=
  os.foldl (fun s o => ringDispose o s) gens

/-- Embeds the rotation in VSGContextImpl::update (VSGContext.cpp lines
607-614): clear the front collection — releasing every object it holds —
and move the emptied collection to the back. Returns the new deque and
the released objects. -/
def ringAdvance {α : Type} : List (List α) → List (List α) × List α
  | [] => ([], [])
  | g :: gs => (gs ++ [[]], g)

/-- One render cycle: the objects disposed during the cycle are appended
to the back generation, then update rotates the deque once. -/
def ringCycle {α : Type} (os : List α) (gens : List (List α)) :
    List (List α) × List α :=
  ringAdvance (ringDisposeAll os gens)

/-- State of the disposal deque after cycles 0 .. k-1 have run, where the
function ds gives the objects disposed during each cycle. -/
def ringRun {α : Type} (ds : Nat → List α) (gens : List (List α)) : Nat → List (List α)
  | 0 => gens
  | k + 1 => (ringCycle (ds k) (ringRun ds gens k)).1

/-- The objects released (destroyed) by the update call of cycle k. -/
def ringReleased {α : Type} (ds : Nat → List α) (gens : List (List α)) (k : Nat) : List α :=
  (ringCycle (ds k) (ringRun ds gens k)).2

/-- Closed form for one generation of the disposal deque after k cycles
from the all-empty start: the generation at index i holds the objects of
cycle k + i + 1 - N when that cycle has already happened (and the slot is
not the back one), and is empty otherwise. -/
def stateGen {α : Type} (ds : Nat → List α) (N k i : Nat) : List α :=
  if i + 1 < N ∧ N ≤ k + i + 1 then ds (k + i + 1 - N) else []

/-- Closed form for the whole disposal deque after k cycles from the
all-empty start of N generations. -/
def stateAt {α : Type} (ds : Nat → List α) (N k : Nat) : List (List α) :=
  (List.range N).map (stateGen ds N k)

/-- Embeds VSGContextImpl::dispose in full (VSGContext.cpp lines 553-571):
a null object does nothing; with a custom disposer installed the object is
handed to it at once and the deferred queue is untouched; otherwise the
object is appended to the back generation of the deferred queue. Returns
the new queue and the objects passed to the custom disposer. -/
def contextDispose {α : Type} (hasDisposer : Bool) (object : Option α)
    (q : List (List α)) : List (List α) × List α :=
  match object with
  | none => (q, [])
  | some o => if hasDisposer then (q, [o]) else (ringDispose o q, [])

/-! ## Bing tile URI cache (src/rocky/BingImageLayer.cpp lines 79-142)

createImageImplementation first consults _tileURICache for the tile key.
On a miss it fetches the imagery metadata, producing either an image URI
or a failed Status, and stores that outcome — success or failure — in the
cache. It then returns the cached failure status when the stored outcome
is a failure, and otherwise reads and decodes the image at the stored URI.
URIs, images and status codes are opaque to the control flow and are
embedded as Nat; the metadata fetch and the image read are embedded as
oracle functions supplied per call. -/

/-- Outcome stored in the tile URI cache for a key: either the image URI
extracted from the metadata, or the failed Status of the metadata fetch
(or of the json extraction). -/
inductive URIResult
  | ok (uri : Nat)
  | failed (err : Nat)
deriving DecidableEq

/-- Result of createImageImplementation: a GeoImage or a failed Status. -/
inductive ImageResult
  | ok (img : Nat)
  | failed (err : Nat)
deriving DecidableEq

/-- Modelled from the spec: TileURICache is declared in BingImageLayer.h,
which is not among the sources; per the specification of AsyncResultCache
it is a keyed memoization store. get returns the memoized outcome for a
key, if any. The store is embedded as an association list. -/
def cacheGet {K : Type} [DecidableEq K] (c : List (K × URIResult)) (k : K) :
    Option URIResult :=
  match c with
  | [] => none
  | (k2, v) :: rest => if k = k2 then some v else cacheGet rest k

/-- Modelled from the spec: TileURICache::put stores the outcome for a
key. -/
def cachePut {K : Type} (c : List (K × URIResult)) (k : K) (v : URIResult) :
    List (K × URIResult) :=
  (k, v) :: c

/-- Embeds BingImageLayer::createImageImplementation (BingImageLayer.cpp
lines 79-142). metaFetch bundles the metadata URI construction, its read
and the json extraction (lines 88-118); imageRead bundles the image URI
read and decode (lines 126-141). Returns the cache after the call, the
result, and the number of metadata fetches the call performed. -/
def createImageImpl {K : Type} [DecidableEq K] (metaFetch : K → URIResult)
    (imageRead : Nat → ImageResult) (cache : List (K × URIResult)) (key : K) :
    List (K × URIResult) × ImageResult × Nat :=
  match cacheGet cache key with
  | some r =>
    match r with
    | .failed e => (cache, .failed e, 0)
    | .ok uri => (cache, imageRead uri, 0)
  | none =>
    let r := metaFetch key
    let cache2 := cachePut cache key r
    match r with
    | .failed e => (cache2, .failed e, 1)
    | .ok uri => (cache2, imageRead uri, 1)

/-! ## Helper lemmas for the sweep pass -/

theorem sweepBack_nil {T : Type} (d : T → Bool) (m : Nat) :
    sweepBack d m [] = ⟨[], [], []⟩ := by
  cases m <;> simp [sweepBack]

theorem sweepBack_zero {T : Type} (d : T → Bool) (l : List T) :
    sweepBack d 0 l = ⟨l, [], []⟩ := by
  cases l <;> simp [sweepBack]

theorem sweepBack_cons_pos {T : Type} (d : T → Bool) (m : Nat) (x : T) (xs : List T)
    (hx : d x = true) :
    sweepBack d (m + 1) (x :: xs) =
      ⟨(sweepBack d m xs).remaining, x :: (sweepBack d m xs).removed,
        x :: (sweepBack d m xs).visited⟩ := by
  simp [sweepBack, hx]

theorem sweepBack_cons_neg {T : Type} (d : T → Bool) (m : Nat) (x : T) (xs : List T)
    (hx : d x = false) :
    sweepBack d (m + 1) (x :: xs) =
      ⟨x :: (sweepBack d (m + 1) xs).remaining, (sweepBack d (m + 1) xs).removed,
        x :: (sweepBack d (m + 1) xs).visited⟩ := by
  simp [sweepBack, hx]

/-- Full characterization of one sweep pass: the removed entries are the
visited ones the disposer accepted, the remaining entries are the visited
ones it rejected followed by the unvisited suffix, at most m entries are
removed, and the visited entries form a prefix of the stale segment. -/
theorem sweepBack_spec {T : Type} (d : T → Bool) :
    ∀ (m : Nat) (l : List T),
      (sweepBack d m l).removed = (sweepBack d m l).visited.filter d ∧
      (sweepBack d m l).remaining =
        (sweepBack d m l).visited.filter (fun x => !(d x)) ++
          l.drop (sweepBack d m l).visited.length ∧
      (sweepBack d m l).removed.length ≤ m ∧
      (sweepBack d m l).visited = l.take (sweepBack d m l).visited.length := by
  intro m l
  induction l generalizing m with
  | nil => simp [sweepBack_nil]
  | cons x xs ih =>
    match m with
    | 0 => simp [sweepBack_zero]
    | m + 1 =>
      by_cases hx : d x
      · have h := ih m
        rw [sweepBack_cons_pos d m x xs hx]
        refine ⟨?_, ?_, ?_, ?_⟩
        · simp [List.filter_cons, hx, h.1]
        · simp [List.filter_cons, hx, h.2.1]
        · simpa using Nat.succ_le_succ h.2.2.1
        · simp only [List.length_cons, List.take_succ_cons, List.cons.injEq, true_and]
          exact h.2.2.2
      · have hx2 : d x = false := by simpa using hx
        have h := ih (m + 1)
        rw [sweepBack_cons_neg d m x xs hx2]
        refine ⟨?_, ?_, ?_, ?_⟩
        · simp [List.filter_cons, hx2, h.1]
        · simp [List.filter_cons, hx2, h.2.1]
        · exact h.2.2.1
        · simp only [List.length_cons, List.take_succ_cons, List.cons.injEq, true_and]
          exact h.2.2.2

/-- With the accept-all disposer and a budget at least the length of the
stale segment, the sweep removes the whole segment. -/
theorem sweepBack_acceptAll {T : Type} :
    ∀ (m : Nat) (l : List T), l.length ≤ m →
      sweepBack acceptAll m l = ⟨[], l, l⟩ := by
  intro m l
  induction l generalizing m with
  | nil => intro _; exact sweepBack_nil _ _
  | cons x xs ih =>
    intro hm
    match m, hm with
    | m + 1, hm =>
      rw [sweepBack_cons_pos acceptAll m x xs rfl]
      rw [ih m (by simpa using hm)]

end Rocky

namespace Rocky

/-- C6: for every tracker state (hence for every sequence of touch calls
leading to it), the sweep visits and removes only entries strictly behind
the sentry, and every entry touched since the previous sweep (ahead of
the sentry) survives into the list behind the relocated sentry. -/
theorem C6_sweep_only_stale {T : Type} (s : Tracker T) (m : Nat) (d : T → Bool) :
    List.Sublist (flush m d s).2.visited s.back ∧
    List.Sublist (flush m d s).2.removed s.back ∧
    List.Sublist s.front (flush m d s).1.back := by
  have h := sweepBack_spec d m s.back
  refine ⟨?_, ?_, ?_⟩
  · have : (flush m d s).2.visited = s.back.take (sweepBack d m s.back).visited.length := h.2.2.2
    rw [this]
    exact List.take_sublist _ _
  · have hrm : (flush m d s).2.removed = (sweepBack d m s.back).visited.filter d := h.1
    rw [hrm]
    refine List.Sublist.trans (List.filter_sublist _) ?_
    have : (sweepBack d m s.back).visited = s.back.take (sweepBack d m s.back).visited.length := h.2.2.2
    rw [this]
    exact List.take_sublist _ _
  · show List.Sublist s.front (s.front ++ (sweepBack d m s.back).remaining)
    exact List.sublist_append_left _ _

end Rocky

namespace Rocky

/-- C10: a visited stale entry whose dispose callback returns false is
retained (it reappears in the remaining list, so its token stays valid)
and does not count toward the removal budget: the removed entries are
exactly the visited entries the callback accepted, and number at most
maxCount, while the visited entries can number more than maxCount, as the
concrete sweep with maxCount 1 over the stale entries 1, 2 with a
callback accepting only 2 shows. -/
theorem C10_retained_do_not_count :
    (∀ (T : Type) (s : Tracker T) (m : Nat) (d : T → Bool),
      (flush m d s).2.remaining =
        (flush m d s).2.visited.filter (fun x => !(d x)) ++
          s.back.drop (flush m d s).2.visited.length ∧
      (flush m d s).2.removed = (flush m d s).2.visited.filter d ∧
      (flush m d s).2.removed.length ≤ m) ∧
    (flush 1 (fun x => x == 2) (⟨[], [1, 2]⟩ : Tracker Nat)).2.visited.length = 2 ∧
    (flush 1 (fun x => x == 2) (⟨[], [1, 2]⟩ : Tracker Nat)).2.removed = [2] ∧
    (flush 1 (fun x => x == 2) (⟨[], [1, 2]⟩ : Tracker Nat)).2.remaining = [1] := by
  refine ⟨?_, by decide, by decide, by decide⟩
  intro T s m d
  have h := sweepBack_spec d m s.back
  exact ⟨h.2.1, h.1, h.2.2.1⟩

/-- C5 scenario with keys A = 0, B = 1, C = 2: a fresh tracker touches A,
B, C; a sweep relocates the sentry; the next cycle touches A and C; the
sweep with maxCount 10 and an accept-all disposer then removes exactly
the entry for B, and the tracker afterward holds exactly the entries for
A and C. -/
theorem C5_scenario_ABC :
    (flush 10 acceptAll
        (useTouch 2 (useTouch 0
          (flush 10 acceptAll
            (useNew 2 (useNew 1 (useNew 0 (⟨[], []⟩ : Tracker Nat))))).1))).2.removed
      = [1] ∧
    (flush 10 acceptAll
        (useTouch 2 (useTouch 0
          (flush 10 acceptAll
            (useNew 2 (useNew 1 (useNew 0 (⟨[], []⟩ : Tracker Nat))))).1))).1
      = ⟨[], [2, 0]⟩ := by
  decide

/-- C3 as stated is false: the claim quantifies over every tracker state,
but on a tracker holding one touched entry the first accept-all sweep
removes nothing, while the second sweep removes that entry — the sentry
relocation performed by the first sweep put the touched segment behind
the sentry, so the second sweep does find something new to remove. -/
theorem C3_counterexample :
    (flush 10 acceptAll (⟨[0], []⟩ : Tracker Nat)).2.removed = [] ∧
    (flush 10 acceptAll (flush 10 acceptAll (⟨[0], []⟩ : Tracker Nat)).1).2.removed = [0] := by
  decide

/-- C3 amended: with an accept-all disposer and sufficient budgets, the
first sweep removes exactly the stale segment, and the second sweep never
revisits it — it removes exactly the entries that were touched before the
first sweep, which the sentry relocation made stale; in particular the
second sweep removes nothing when no entry had been touched. -/
theorem C3_amended {T : Type} (s : Tracker T) (m1 m2 : Nat)
    (h1 : s.back.length ≤ m1) (h2 : s.front.length ≤ m2) :
    (flush m1 acceptAll s).2.removed = s.back ∧
    (flush m1 acceptAll s).1 = ⟨[], s.front⟩ ∧
    (flush m2 acceptAll (flush m1 acceptAll s).1).2.removed = s.front ∧
    (s.front = [] → (flush m2 acceptAll (flush m1 acceptAll s).1).2.removed = []) := by
  have e1 : sweepBack acceptAll m1 s.back = ⟨[], s.back, s.back⟩ :=
    sweepBack_acceptAll m1 s.back h1
  have hfl1 : flush m1 acceptAll s = (⟨[], s.front⟩, ⟨[], s.back, s.back⟩) := by
    simp [flush, e1]
  have e2 : sweepBack acceptAll m2 s.front = ⟨[], s.front, s.front⟩ :=
    sweepBack_acceptAll m2 s.front h2
  refine ⟨by rw [hfl1], by rw [hfl1], ?_, ?_⟩
  · rw [hfl1]
    show (sweepBack acceptAll m2 s.front).removed = s.front
    rw [e2]
  · intro hf
    rw [hfl1]
    show (sweepBack acceptAll m2 s.front).removed = []
    rw [e2, hf]

/-- Witness for C3: on the tracker holding touched entry 5 and stale
entry 9, the first accept-all sweep removes 9 and the second removes 5. -/
theorem C3_witness :
    (flush 10 acceptAll (⟨[5], [9]⟩ : Tracker Nat)).2.removed = [9] ∧
    (flush 10 acceptAll (flush 10 acceptAll (⟨[5], [9]⟩ : Tracker Nat)).1).2.removed = [5] :=
  ⟨(C3_amended ⟨[5], [9]⟩ 10 10 (by decide) (by decide)).1,
   (C3_amended ⟨[5], [9]⟩ 10 10 (by decide) (by decide)).2.2.1⟩

end Rocky

namespace Rocky

theorem insertTask_perm (t : Task) (l : List Task) :
    List.Perm (insertTask t l) (t :: l) := by
  induction l with
  | nil => simp [insertTask]
  | cons u us ih =>
    by_cases h : taskLT t u
    · simp [insertTask, h]
    · simp only [insertTask, h, if_neg, Bool.not_eq_true]
      exact (List.Perm.cons u ih).trans (List.Perm.swap t u us)

theorem sortTasks_perm (q : List Task) : List.Perm (sortTasks q) q := by
  induction q with
  | nil => simp [sortTasks]
  | cons t ts ih =>
    exact (insertTask_perm t (sortTasks ts)).trans (List.Perm.cons t ih)

theorem selectLoop_all_canceled :
    ∀ (l : List Task), (∀ t ∈ l, taskCanceled t = true) → selectLoop l = (none, []) := by
  intro l
  induction l with
  | nil => intro _; rfl
  | cons t rest ih =>
    intro h
    have ht : taskCanceled t = true := h t (by simp)
    simp only [selectLoop, ht, if_pos]
    exact ih (fun u hu => h u (by simp [hu]))

theorem selectLoop_some :
    ∀ (l : List Task) (t : Task) (rest : List Task),
      selectLoop l = (some t, rest) → taskCanceled t = false := by
  intro l
  induction l with
  | nil => intro t rest h; simp [selectLoop] at h
  | cons u us ih =>
    intro t rest h
    by_cases hu : taskCanceled u
    · simp only [selectLoop, hu, if_pos] at h
      exact ih t rest h
    · simp only [selectLoop, hu, if_neg, Bool.not_eq_true, Prod.mk.injEq,
        Option.some.injEq] at h
      rw [← h.1]
      simpa using hu

theorem selectLoop_eq_dropWhile :
    ∀ (l : List Task), selectLoop l =
      ((l.dropWhile taskCanceled).head?, (l.dropWhile taskCanceled).tail) := by
  intro l
  induction l with
  | nil => rfl
  | cons t rest ih =>
    by_cases h : taskCanceled t
    · simp [selectLoop, List.dropWhile_cons, h, ih]
    · simp [selectLoop, List.dropWhile_cons, h]

/-- C4: one run call executes at most one task; every executed task has a
cancellation probe not reporting canceled; the executed tasks are exactly
the first non-canceled task of the pop order (the reversed sorted queue),
so when a runnable task is popped it runs and none when there is none; the
run then stops: the tasks not yet popped stay pending, in order; every
task popped and discarded before the executed one was canceled; and when
every pending task is canceled the call pops the whole queue, executing
nothing and leaving the queue empty. -/
theorem C4_at_most_one_task (q : List Task) :
    (runOne q).2.length ≤ 1 ∧
    (∀ t ∈ (runOne q).2, taskCanceled t = false) ∧
    (runOne q).2 = ((sortTasks q).reverse.dropWhile taskCanceled).head?.toList ∧
    (runOne q).1 = ((sortTasks q).reverse.dropWhile taskCanceled).tail.reverse ∧
    (∀ u ∈ (sortTasks q).reverse.takeWhile taskCanceled, taskCanceled u = true) ∧
    ((∃ t ∈ q, taskCanceled t = false) → (runOne q).2.length = 1) ∧
    ((∀ t ∈ q, taskCanceled t = true) → (runOne q).2 = [] ∧ (runOne q).1 = []) := by
  have htw : ∀ u ∈ (sortTasks q).reverse.takeWhile taskCanceled, taskCanceled u = true :=
    fun u hu => List.mem_takeWhile_imp hu
  by_cases hq : q.isEmpty
  · have hqnil : q = [] := List.isEmpty_iff.mp hq
    subst hqnil
    refine ⟨?_, ?_, ?_, ?_, htw, ?_, ?_⟩ <;> simp [runOne, sortTasks]
  · cases hdw : (sortTasks q).reverse.dropWhile taskCanceled with
    | nil =>
      have hsel : selectLoop (sortTasks q).reverse = (none, []) := by
        rw [selectLoop_eq_dropWhile, hdw]
        rfl
      have hrun : runOne q = ([], []) := by
        simp [runOne, hq, hsel]
      have hallc : ∀ u ∈ (sortTasks q).reverse, taskCanceled u = true :=
        List.dropWhile_eq_nil_iff.mp hdw
      refine ⟨?_, ?_, ?_, ?_, htw, ?_, ?_⟩
      · simp [hrun]
      · simp [hrun]
      · simp [hrun, hdw]
      · simp [hrun, hdw]
      · intro hex
        exfalso
        obtain ⟨t, ht, htc⟩ := hex
        have : t ∈ (sortTasks q).reverse :=
          List.mem_reverse.mpr ((sortTasks_perm q).mem_iff.mpr ht)
        rw [hallc t this] at htc
        exact Bool.noConfusion htc
      · intro _
        simp [hrun]
    | cons t rest =>
      have hsel : selectLoop (sortTasks q).reverse = (some t, rest) := by
        rw [selectLoop_eq_dropWhile, hdw]
        rfl
      have hrun : runOne q = (rest.reverse, [t]) := by
        simp [runOne, hq, hsel]
      have htc : taskCanceled t = false := selectLoop_some _ t rest hsel
      refine ⟨?_, ?_, ?_, ?_, htw, ?_, ?_⟩
      · simp [hrun]
      · intro u hu
        rw [hrun] at hu
        have : u = t := by simpa using hu
        subst this
        exact htc
      · simp [hrun, hdw]
      · simp [hrun, hdw]
      · intro _
        simp [hrun]
      · intro hall
        exfalso
        have hall2 : ∀ u ∈ (sortTasks q).reverse, taskCanceled u = true := by
          intro u hu
          exact hall u ((sortTasks_perm q).mem_iff.mp (List.mem_reverse.mp hu))
        have : (sortTasks q).reverse.dropWhile taskCanceled = [] :=
          List.dropWhile_eq_nil_iff.mpr hall2
        rw [hdw] at this
        exact List.noConfusion this

/-- Witness for C4 at the queue of two canceled tasks and the empty
executed outcome. -/
theorem C4_witness :
    (runOne [⟨1, some 2, some true⟩, ⟨2, none, some true⟩]).2 = [] ∧
    (runOne [⟨1, some 2, some true⟩, ⟨2, none, some true⟩]).1 = [] :=
  (C4_at_most_one_task [⟨1, some 2, some true⟩, ⟨2, none, some true⟩]).2.2.2.2.2.2
    (by decide)

end Rocky

namespace Rocky

/-- C1 as stated is false on the code: in the sort comparator a task with
a null get_priority is never less than another task while every task with
a priority is less than it, so tasks without a priority closure sort to
the back — the position popped first. For the queue holding T1 with
priority 5, T2 with priority 1, and T3 with no priority closure, three
run calls execute T3 first, then T1, then T2, not T1, T2, T3. -/
theorem C1_counterexample :
    (runTicks 3 [⟨1, some 5, none⟩, ⟨2, some 1, none⟩, ⟨3, none, none⟩]).2 = [3, 1, 2] ∧
    (runTicks 3 [⟨1, some 5, none⟩, ⟨2, some 1, none⟩, ⟨3, none, none⟩]).2 ≠ [1, 2, 3] := by
  decide

/-- C1 amended: tasks with no priority closure sort highest — every task
with a priority compares strictly below them — so they are popped first;
consequently three run calls on the queue holding T1 with priority 5, T2
with priority 1, and T3 with no priority closure execute T3 first, then
T1, then T2. -/
theorem C1_amended :
    (∀ (i j : Nat) (p : Int) (pr pr2 : Option Bool),
      taskLT ⟨i, none, pr⟩ ⟨j, some p, pr2⟩ = false ∧
      taskLT ⟨j, some p, pr2⟩ ⟨i, none, pr⟩ = true) ∧
    (runTicks 3 [⟨1, some 5, none⟩, ⟨2, some 1, none⟩, ⟨3, none, none⟩]).2 = [3, 1, 2] := by
  exact ⟨fun i j p pr pr2 => ⟨rfl, rfl⟩, by decide⟩

end Rocky

namespace Rocky

theorem ringDispose_append {α : Type} (o : α) (g : List α) :
    ∀ (gs : List (List α)), ringDispose o (gs ++ [g]) = gs ++ [g ++ [o]] := by
  intro gs
  induction gs with
  | nil => rfl
  | cons x xs ih =>
    cases xs with
    | nil => simp [ringDispose]
    | cons y ys =>
      show ringDispose o (x :: (y :: ys ++ [g])) = _
      rw [show ringDispose o (x :: (y :: ys ++ [g]))
            = x :: ringDispose o (y :: ys ++ [g]) from rfl]
      rw [ih]
      rfl

theorem ringDisposeAll_append {α : Type} :
    ∀ (os : List α) (gs : List (List α)) (g : List α),
      ringDisposeAll os (gs ++ [g]) = gs ++ [g ++ os] := by
  intro os
  induction os with
  | nil => intro gs g; simp [ringDisposeAll]
  | cons o os ih =>
    intro gs g
    show ringDisposeAll os (ringDispose o (gs ++ [g])) = _
    rw [ringDispose_append, ih]
    simp

theorem stateAt_zero {α : Type} (ds : Nat → List α) (N : Nat) :
    stateAt ds N 0 = List.replicate N [] := by
  unfold stateAt
  have h : ∀ i ∈ List.range N, stateGen ds N 0 i = (fun _ => ([] : List α)) i := by
    intro i _
    unfold stateGen
    rw [if_neg]
    omega
  rw [List.map_congr_left h]
  simp

end Rocky

namespace Rocky

theorem ringCycle_stateAt {α : Type} (ds : Nat → List α) (N k : Nat) (hN : 1 ≤ N) :
    ringCycle (ds k) (stateAt ds N k) =
      (stateAt ds N (k + 1), if N ≤ k + 1 then ds (k + 1 - N) else []) := by
  match N, hN with
  | M + 1, _ =>
    have hlast : stateGen ds (M + 1) k M = [] := by
      unfold stateGen
      rw [if_neg]
      omega
    have h1 : stateAt ds (M + 1) k =
        (List.range M).map (stateGen ds (M + 1) k) ++ [[]] := by
      unfold stateAt
      rw [List.range_succ, List.map_append]
      simp [hlast]
    unfold ringCycle
    rw [h1, ringDisposeAll_append]
    simp only [List.nil_append]
    cases M with
    | zero =>
      simp only [List.range_zero, List.map_nil, List.nil_append]
      show ([[]], ds k) = _
      have h2 : stateAt ds 1 (k + 1) = [[]] := by
        unfold stateAt stateGen
        simp
      rw [h2, if_pos (by omega), Nat.add_sub_cancel]
    | succ M2 =>
      rw [List.range_succ_eq_map, List.map_cons, List.map_map]
      show ((List.range M2).map (stateGen ds (M2 + 2) k ∘ Nat.succ) ++ [ds k] ++ [[]],
        stateGen ds (M2 + 2) k 0) = _
      have hsnd : stateGen ds (M2 + 2) k 0 =
          if M2 + 2 ≤ k + 1 then ds (k + 1 - (M2 + 2)) else [] := by
        unfold stateGen
        by_cases hc : M2 + 2 ≤ k + 1
        · rw [if_pos ⟨by omega, by omega⟩, if_pos hc]
        · rw [if_neg (by omega), if_neg hc]
      have hfst : (List.range M2).map (stateGen ds (M2 + 2) k ∘ Nat.succ) ++ [ds k] ++ [[]] =
          stateAt ds (M2 + 2) (k + 1) := by
        unfold stateAt
        rw [show M2 + 2 = (M2 + 1) + 1 from rfl, List.range_succ, List.map_append,
          List.range_succ, List.map_append]
        have hg1 : stateGen ds (M2 + 2) (k + 1) (M2 + 1) = [] := by
          unfold stateGen
          rw [if_neg]
          omega
        have hg2 : stateGen ds (M2 + 2) (k + 1) M2 = ds k := by
          unfold stateGen
          rw [if_pos ⟨by omega, by omega⟩]
          exact congrArg ds (by omega)
        have hg3 : ∀ i ∈ List.range M2,
            stateGen ds (M2 + 2) (k + 1) i = (stateGen ds (M2 + 2) k ∘ Nat.succ) i := by
          intro i hi
          have hi2 : i < M2 := List.mem_range.mp hi
          show stateGen ds (M2 + 2) (k + 1) i = stateGen ds (M2 + 2) k (i + 1)
          unfold stateGen
          by_cases hc : M2 + 2 ≤ k + i + 2
          · rw [if_pos ⟨by omega, by omega⟩, if_pos ⟨by omega, by omega⟩]
            exact congrArg ds (by omega)
          · rw [if_neg (by omega), if_neg (by omega)]
        simp only [List.map_cons, List.map_nil]
        rw [hg1, hg2, List.map_congr_left hg3]
      rw [hsnd, hfst]

theorem ringRun_closed {α : Type} (ds : Nat → List α) (N : Nat) (hN : 1 ≤ N) :
    ∀ k, ringRun ds (List.replicate N []) k = stateAt ds N k := by
  intro k
  induction k with
  | zero => exact (stateAt_zero ds N).symm
  | succ k ih =>
    show (ringCycle (ds k) (ringRun ds (List.replicate N []) k)).1 = _
    rw [ih, ringCycle_stateAt ds N k hN]

theorem ringReleased_closed {α : Type} (ds : Nat → List α) (N k : Nat) (hN : 1 ≤ N) :
    ringReleased ds (List.replicate N []) k =
      if N ≤ k + 1 then ds (k + 1 - N) else [] := by
  unfold ringReleased
  rw [ringRun_closed ds N hN k, ringCycle_stateAt ds N k hN]

end Rocky

namespace Rocky

/-- C2: starting from the all-empty deque of N generations, with advance
run once per cycle after the cycle disposals, an object first disposed at
cycle t is released by the advance of cycle t + N - 1 — within the claimed
window of no earlier than cycle t + N - 1 and no later than cycle t + N —
and by no earlier advance. -/
theorem C2_disposal_latency {α : Type} (N t : Nat) (hN : 1 ≤ N)
    (ds : Nat → List α) (o : α) (ho : o ∈ ds t)
    (hfresh : ∀ t2, t2 < t → o ∉ ds t2) :
    o ∈ ringReleased ds (List.replicate N []) (t + N - 1) ∧
    (∀ k, k < t + N - 1 → o ∉ ringReleased ds (List.replicate N []) k) := by
  constructor
  · rw [ringReleased_closed ds N (t + N - 1) hN, if_pos (by omega)]
    have : t + N - 1 + 1 - N = t := by omega
    rw [this]
    exact ho
  · intro k hk
    rw [ringReleased_closed ds N k hN]
    by_cases hc : N ≤ k + 1
    · rw [if_pos hc]
      exact hfresh (k + 1 - N) (by omega)
    · rw [if_neg hc]
      exact List.not_mem_nil o

/-- Witness for C2 at the N = 3 scenario: object 7 disposed at cycle 0 is
released by the advance of cycle 2 and by neither earlier advance. -/
theorem C2_witness :
    7 ∈ ringReleased (fun n => if n = 0 then ([7] : List Nat) else [])
        (List.replicate 3 []) 2 ∧
    7 ∉ ringReleased (fun n => if n = 0 then ([7] : List Nat) else [])
        (List.replicate 3 []) 0 ∧
    7 ∉ ringReleased (fun n => if n = 0 then ([7] : List Nat) else [])
        (List.replicate 3 []) 1 :=
  ⟨(C2_disposal_latency 3 0 (by decide) _ 7 (by decide)
      (fun t2 h => absurd h (Nat.not_lt_zero t2))).1,
   (C2_disposal_latency 3 0 (by decide) _ 7 (by decide)
      (fun t2 h => absurd h (Nat.not_lt_zero t2))).2 0 (by decide),
   (C2_disposal_latency 3 0 (by decide) _ 7 (by decide)
      (fun t2 h => absurd h (Nat.not_lt_zero t2))).2 1 (by decide)⟩

/-- C9: when a custom disposer is installed, dispose of a non-null object
hands the object to the disposer at once and leaves the deferred disposal
queue untouched, so the deferred-release latency bound does not apply to
it; dispose of a null object changes nothing and invokes nothing. -/
theorem C9_custom_disposer {α : Type} (q : List (List α)) :
    (∀ (o : α), contextDispose true (some o) q = (q, [o])) ∧
    (∀ (b : Bool), contextDispose b none q = (q, [])) :=
  ⟨fun _ => rfl, fun _ => rfl⟩

end Rocky

namespace Rocky

/-- C7: on a cache miss whose metadata fetch fails, the failure is stored
in the tile URI cache; afterwards every call for that key — whatever its
metadata fetch would now return — returns the cached failed status,
performs zero metadata fetches, and leaves the cache unchanged, until the
entry is removed from the cache. -/
theorem C7_failure_memoized {K : Type} [DecidableEq K]
    (metaFetch metaFetch2 : K → URIResult) (imageRead imageRead2 : Nat → ImageResult)
    (cache : List (K × URIResult)) (key : K) (e : Nat)
    (hmiss : cacheGet cache key = none) (hfail : metaFetch key = .failed e) :
    createImageImpl metaFetch imageRead cache key =
      (cachePut cache key (.failed e), .failed e, 1) ∧
    cacheGet (cachePut cache key (.failed e)) key = some (.failed e) ∧
    (∀ (c2 : List (K × URIResult)), cacheGet c2 key = some (.failed e) →
      createImageImpl metaFetch2 imageRead2 c2 key = (c2, .failed e, 0)) := by
  refine ⟨?_, ?_, ?_⟩
  · unfold createImageImpl
    rw [hmiss, hfail]
  · simp [cacheGet, cachePut]
  · intro c2 h2
    unfold createImageImpl
    rw [h2]

/-- Witness for C7: key 0 misses the empty cache, the metadata fetch fails
with status 4, the failure is memoized, and a second call with a metadata
fetch that would now succeed still returns the cached failure without
fetching. -/
theorem C7_witness :
    createImageImpl (fun _ => URIResult.failed 4) (fun u => ImageResult.ok u)
        ([] : List (Nat × URIResult)) 0 = ([(0, URIResult.failed 4)], ImageResult.failed 4, 1) ∧
    createImageImpl (fun _ => URIResult.ok 9) (fun u => ImageResult.ok u)
        [(0, URIResult.failed 4)] 0 = ([(0, URIResult.failed 4)], ImageResult.failed 4, 0) :=
  ⟨(C7_failure_memoized (fun _ => URIResult.failed 4) (fun _ => URIResult.ok 9)
      (fun u => ImageResult.ok u) (fun u => ImageResult.ok u) [] 0 4 rfl rfl).1,
   (C7_failure_memoized (fun _ => URIResult.failed 4) (fun _ => URIResult.ok 9)
      (fun u => ImageResult.ok u) (fun u => ImageResult.ok u) [] 0 4 rfl rfl).2.2
      [(0, URIResult.failed 4)] rfl⟩

end Rocky
